import Mathlib

/-!
Verification of the MemoriQ retrieval-augmented memory subsystem.

This file shallowly embeds the core logic of the repository:
* the vector codec (`embeddingToBlob` in `src/lib/selectReminisceNotes.ts`,
  `blobToEmbedding` in `src/lib/retrieveRelevantNotes.ts`),
* the similarity retrieval engine (`retrieveRelevantNotes`),
* the note text embedding generator (`generateNoteTextEmbedding`),
* the query embedding helper (`generateQueryEmbedding`),
* the reminiscence selection scorer (`selectReminisceNotes`),
* the debounced task coalescer (`updateNoteEmbeddings` / `updateRecallScript`),
* the post-save pipeline chaining in `createNote` / `updateNote`.

Modelling conventions.  Float32 values are represented by their 32-bit
patterns (naturals below 2^32): typed-array views copy bits verbatim, so the
codec is exactly the little-endian byte (de)serialisation of those patterns
for every value, finite floats included.  Cosine similarity over floats
(which needs a square root) is not computed in the model; the retrieval
engine is parametric in the similarity function, which is all the selection
logic depends on.  Asynchrony is modelled by explicit state passing and, for
the debounce machinery, by a timed state machine.  JavaScript `try`/`catch`
is modelled by total functions returning `Except` or by explicit outcome
arguments for the fallible external capabilities.
-/

namespace MemoriQ

/-! ## Vector codec

`embeddingToBlob` (src/lib/selectReminisceNotes.ts, embedding module):
`new Uint8Array(new Float32Array(embedding).buffer)` — each element is laid
out as 4 little-endian bytes.

`blobToEmbedding` (src/lib/retrieveRelevantNotes.ts lines 40–58) takes the
stored blob in one of four shapes: a `Uint8Array`, an `ArrayBuffer`, a
duck-typed buffer view, or anything else.
* `Uint8Array` branch: `new Float32Array(blob.buffer, blob.byteOffset,
  blob.byteLength / 4)`.  When `byteLength` is not a multiple of 4 the
  fractional length goes through the ECMAScript `ToIndex` conversion, which
  truncates (`ToIntegerOrInfinity`), so the constructor succeeds and reads
  `floor(byteLength / 4)` elements — the trailing 1–3 bytes are silently
  ignored, no exception is raised.
* `ArrayBuffer` branch: `new Float32Array(blob)` — the spec requires the
  buffer's byte length to be a multiple of the element size and throws a
  `RangeError` otherwise.
* duck-typed view branch: same constructor call as the `Uint8Array` branch.
* otherwise: `throw new Error('Unsupported blob type')`.
-/

/-- The 32-bit pattern of one float32, split into 4 little-endian bytes. -/
def wordBytes (w : Nat) : List Nat :=
  [w % 256, w / 256 % 256, w / 65536 % 256, w / 16777216 % 256]

/-- Reassemble little-endian 4-byte groups into 32-bit patterns; a trailing
group of fewer than 4 bytes is dropped (this is what reading
`floor(byteLength / 4)` elements from the buffer does). -/
def bytesToFloats : List Nat → List Nat
  | b0 :: b1 :: b2 :: b3 :: rest =>
      (b0 + 256 * b1 + 65536 * b2 + 16777216 * b3) :: bytesToFloats rest
  | _ => []

/-- The dynamic shapes a stored `embedding` column value can arrive in at
`blobToEmbedding` (src/lib/retrieveRelevantNotes.ts lines 40–58). -/
inductive Blob where
  | uint8 (bytes : List Nat)
  | arrayBuffer (bytes : List Nat)
  | bufferView (bytes : List Nat)
  | unsupported
deriving DecidableEq, Repr

/-- `blobToEmbedding` (src/lib/retrieveRelevantNotes.ts lines 40–58).
The thrown JavaScript exceptions are modelled by `Except.error`. -/
def blobToEmbedding : Blob → Except String (List Nat)
  | .uint8 bs => .ok (bytesToFloats bs)
  | .arrayBuffer bs =>
      if bs.length % 4 = 0 then .ok (bytesToFloats bs)
      else .error "RangeError: byte length of Float32Array should be a multiple of 4"
  | .bufferView bs => .ok (bytesToFloats bs)
  | .unsupported => .error "Unsupported blob type"

/-- `embeddingToBlob` (src/lib/selectReminisceNotes.ts, embedding module,
lines 125–128): the float32 array's backing buffer viewed as bytes. -/
def embeddingToBlob (embedding : List Nat) : Blob :=
  .uint8 (embedding.flatMap wordBytes)

/-- The byte list carried by a blob (its `byteLength` is the list length). -/
def Blob.bytes : Blob → List Nat
  | .uint8 bs => bs
  | .arrayBuffer bs => bs
  | .bufferView bs => bs
  | .unsupported => []

/-! ## Note text embedding generator

`generateNoteTextEmbedding` (src/lib/selectReminisceNotes.ts, embedding
module, lines 148–222).  The fallible external collaborators are explicit
arguments: the loaded note (`getNoteById`), the existing
`note_embeddings` row for the note, whether `ModelManager` has an
embedding context, and the outcome of the `embedding(...)` capability
call.  The whole body runs under `try`/`catch`; the catch block executes
`UPDATE note_embeddings SET status = 'failed' WHERE noteId = ?`, which
changes the row if and only if one exists.  Store vectors are modelled as
the numeric lists handed to `embeddingToBlob` in the source. -/

inductive EmbStatus where
  | completed
  | failed
deriving DecidableEq, Repr

/-- One `note_embeddings` row (columns for a fixed `noteId`). -/
structure EmbRecord where
  embedding : List ℚ
  embeddingDimensions : Nat
  textHash : String
  status : EmbStatus
  createdAt : Int
deriving DecidableEq, Repr

/-- The note fields that feed the text embedding. -/
structure NoteText where
  title : String
  content : String
  tagNames : List String
deriving DecidableEq, Repr

/-- `combineNoteText` (src/lib/selectReminisceNotes.ts, embedding module,
lines 131–134). -/
def combineNoteText (title content : String) (tags : List String) : String :=
  (if tags.length > 0 then "Tags: " ++ String.intercalate ", " tags ++ "\n\n" else "") ++
    title ++ "\n\n" ++ content

/-- Outcome of one call to the embedding capability
(`embeddingContext.embedding(text)`): it can throw, or return a result
whose `embedding` field is missing (`none`) or a vector. -/
inductive EmbedCallResult where
  | throws
  | value (embedding : Option (List ℚ))
deriving DecidableEq, Repr

/-- Observable side effects of `generateNoteTextEmbedding`: inference
calls to the embedding capability and store statements that touch the
`note_embeddings` table. -/
inductive GenEffect where
  | embedCall (text : String)
  | storeWrite
deriving DecidableEq, Repr

/-- `UPDATE note_embeddings SET status = 'failed' WHERE noteId = ?`:
affects the row iff it exists; vector, hash and the other columns are
untouched. -/
def setFailed (existing : Option EmbRecord) : Option EmbRecord :=
  existing.map fun r => { r with status := EmbStatus.failed }

/-- The part of `generateNoteTextEmbedding` after the fingerprint
short-circuit: obtain the context (throwing if absent), call the
capability, validate the vector, and upsert; any throw lands in the catch
block, which downgrades an existing row to `failed`. -/
def embedAndStore (existing : Option EmbRecord) (ctxAvailable : Bool)
    (embedResult : EmbedCallResult) (combinedText textHash : String) (now : Int) :
    Option EmbRecord × List GenEffect :=
  if ctxAvailable = false then
    (setFailed existing, [GenEffect.storeWrite])
  else
    match embedResult with
    | .throws =>
        (setFailed existing, [GenEffect.embedCall combinedText, GenEffect.storeWrite])
    | .value none =>
        (setFailed existing, [GenEffect.embedCall combinedText, GenEffect.storeWrite])
    | .value (some []) =>
        (setFailed existing, [GenEffect.embedCall combinedText, GenEffect.storeWrite])
    | .value (some emb) =>
        (some { embedding := emb, embeddingDimensions := emb.length,
                textHash := textHash, status := EmbStatus.completed, createdAt := now },
          [GenEffect.embedCall combinedText, GenEffect.storeWrite])

/-- `generateNoteTextEmbedding` (src/lib/selectReminisceNotes.ts,
embedding module, lines 148–222).  Returns the `note_embeddings` row for
the note after the call, together with the list of performed effects.
The function is total: no exception propagates to the caller. -/
def generateNoteTextEmbedding (hashF : String → String)
    (note : Option NoteText) (existing : Option EmbRecord)
    (ctxAvailable : Bool) (embedResult : EmbedCallResult) (now : Int) :
    Option EmbRecord × List GenEffect :=
  match note with
  | none => (existing, [])
  | some nt =>
      let combinedText := combineNoteText nt.title nt.content nt.tagNames
      let textHash := hashF combinedText
      match existing with
      | some r =>
          if r.textHash = textHash then (existing, [])
          else embedAndStore existing ctxAvailable embedResult combinedText textHash now
      | none => embedAndStore none ctxAvailable embedResult combinedText textHash now

/-! ## Query embedding (src/lib/createQueryEmbedding.ts lines 8–34) -/

/-- The code points removed by JavaScript `String.prototype.trim`
(WhiteSpace and LineTerminator code points). -/
def jsWhitespaceCodes : List Nat :=
  [9, 10, 11, 12, 13, 32, 160, 5760, 8192, 8193, 8194, 8195, 8196, 8197,
    8198, 8199, 8200, 8201, 8202, 8232, 8233, 8239, 8287, 12288, 65279]

def isJsWhitespace (c : Char) : Bool :=
  jsWhitespaceCodes.contains c.toNat

/-- `text.trim()`: strip leading and trailing JavaScript whitespace. -/
def jsTrim (s : String) : String :=
  String.mk (((s.toList.dropWhile isJsWhitespace).reverse.dropWhile isJsWhitespace).reverse)

/-- `generateQueryEmbedding` (src/lib/createQueryEmbedding.ts lines 8–34).
`ctxAvailable` tells whether `ModelManager.getEmbeddingContext()` returns a
context; `embedFn` gives the outcome of the capability call on the
processed text.  The body runs under `try`/`catch` returning `null` — the
model is total and returns `none` on every failure path. -/
def generateQueryEmbedding (ctxAvailable : Bool)
    (embedFn : String → EmbedCallResult) (text : String) :
    Option (List ℚ × String) :=
  if ctxAvailable = false then none
  else
    let processedText := jsTrim text
    match embedFn processedText with
    | .throws => none
    | .value none => none
    | .value (some emb) =>
        if emb.length = 0 then none
        else some (emb, processedText)

/-! ## Reminiscence selection scorer (src/lib/selectReminisceNotes.ts lines 1–64) -/

/-- `Tag` (src/database/types.ts). -/
structure Tag where
  id : Int
  name : String
deriving DecidableEq, Repr

/-- `Image` (src/database/types.ts). -/
structure Image where
  id : Int
  noteId : Int
  uri : String
  description : String
deriving DecidableEq, Repr

/-- `NoteWithDetails` (src/database/types.ts): a note with its tags and
images.  Nullable columns are `Option`s. -/
structure NoteWithDetails where
  id : Int
  title : String
  content : String
  audioUri : Option String
  recallScript : Option String
  lastShownInReminisce : Option Int
  createdAt : Int
  updatedAt : Int
  tags : List Tag
  images : List Image
deriving DecidableEq, Repr

/-- JavaScript truthiness of a nullable string: `null` and `''` are falsy. -/
def truthyStr : Option String → Bool
  | none => false
  | some s => s != ""

/-- `ageInDays` (src/lib/selectReminisceNotes.ts lines 8–13):
`Math.floor((now - createdAt) / 86400000)`; `Math.floor` on the exact
quotient is flooring division. -/
def ageInDays (now : Int) (note : NoteWithDetails) : Int :=
  (now - note.createdAt).fdiv 86400000

/-- `daysSinceLastShown` (src/lib/selectReminisceNotes.ts lines 16–24).
`!note.lastShownInReminisce` is true for `null` and for the timestamp `0`,
both yielding 9999. -/
def daysSinceLastShown (now : Int) (note : NoteWithDetails) : Int :=
  match note.lastShownInReminisce with
  | none => 9999
  | some t => if t = 0 then 9999 else (now - t).fdiv 86400000

/-- The reminiscence value score (src/lib/selectReminisceNotes.ts lines
48–56), computed over exact rationals:
`(hasImages ? 50 : 0) + age*0.5 + contentLength*0.01
 + daysSinceLastShown*2 + (recallScript ? 10 : -100)`. -/
def noteScore (now : Int) (note : NoteWithDetails) : ℚ :=
  (if note.images.length > 0 then 50 else 0) +
    (ageInDays now note : ℚ) * (1 / 2) +
    (note.content.length : ℚ) * (1 / 100) +
    (daysSinceLastShown now note : ℚ) * 2 +
    (if truthyStr note.recallScript then 10 else -100)

/-- One Fisher–Yates step: swap positions `i` and `j`; out-of-range
indices leave the list unchanged (they never occur in the source, where
`j = Math.floor(Math.random() * (i + 1)) ≤ i < length`). -/
def swapAt {α : Type*} (l : List α) (i j : Nat) : List α :=
  match l[i]?, l[j]? with
  | some x, some y => (l.set i y).set j x
  | _, _ => l

/-- The Fisher–Yates loop (src/lib/selectReminisceNotes.ts lines 29–32):
`i` runs from `length - 1` down to `1`, swapping position `i` with
position `js i`, where `js` supplies the already-floored random draws. -/
def fisherYatesAux {α : Type*} (js : Nat → Nat) : Nat → List α → List α
  | 0, l => l
  | i + 1, l => fisherYatesAux js i (swapAt l (i + 1) (js (i + 1)))

/-- `shuffle` (src/lib/selectReminisceNotes.ts lines 27–34), parametric in
the random index draws. -/
def shuffle {α : Type*} (js : Nat → Nat) (l : List α) : List α :=
  fisherYatesAux js (l.length - 1) l

/-- The sort comparator `(a, b) => b.score - a.score`: descending by
score.  JavaScript's sort is stable, as is `List.insertionSort`. -/
def scoreDesc (a b : NoteWithDetails × ℚ) : Prop := b.2 ≤ a.2

instance : DecidableRel scoreDesc := fun a b => inferInstanceAs (Decidable (b.2 ≤ a.2))

instance : IsTotal (NoteWithDetails × ℚ) scoreDesc := ⟨fun a b => le_total b.2 a.2⟩

instance : IsTrans (NoteWithDetails × ℚ) scoreDesc := ⟨fun _ _ _ h1 h2 => le_trans h2 h1⟩

/-- `scored` (src/lib/selectReminisceNotes.ts lines 48–56): every
candidate paired with its score. -/
def scoredOf (now : Int) (allNotes : List NoteWithDetails) :
    List (NoteWithDetails × ℚ) :=
  allNotes.map fun note => (note, noteScore now note)

/-- `scored.sort((a, b) => b.score - a.score)` (line 60): stable
descending sort by score. -/
def sortedOf (now : Int) (allNotes : List NoteWithDetails) :
    List (NoteWithDetails × ℚ) :=
  List.insertionSort scoreDesc (scoredOf now allNotes)

/-- `selectReminisceNotes` (src/lib/selectReminisceNotes.ts lines 37–64). -/
def selectReminisceNotes (js : Nat → Nat) (now : Int) (count : Nat)
    (allNotes : List NoteWithDetails) : List NoteWithDetails :=
  if allNotes.length = 0 then []
  else if allNotes.length ≤ count then shuffle js allNotes
  else shuffle js (((sortedOf now allNotes).take count).map Prod.fst)

/-- The example note A of the spec: images, age 10 days, 200 characters of
content, never shown, has a recall script (`exampleNow` is 10 days). -/
def exampleNow : Int := 864000000

def exampleNoteA : NoteWithDetails where
  id := 1
  title := "A"
  content := String.mk (List.replicate 200 'x')
  audioUri := none
  recallScript := some "script"
  lastShownInReminisce := none
  createdAt := 0
  updatedAt := 0
  tags := []
  images := [{ id := 1, noteId := 1, uri := "u", description := "d" }]

/-- The example note B of the spec: no images, age 1 day, 50 characters,
shown just now, no recall script. -/
def exampleNoteB : NoteWithDetails where
  id := 2
  title := "B"
  content := String.mk (List.replicate 50 'x')
  audioUri := none
  recallScript := none
  lastShownInReminisce := some 864000000
  createdAt := 777600000
  updatedAt := 777600000
  tags := []
  images := []

/-! ## Debounced task coalescer

`updateNoteEmbeddings` (src/lib/selectReminisceNotes.ts lines 327–355) and
`updateRecallScript` (src/lib/recallScriptGenerator.ts lines 103–135) are
two instances of the same pattern: a module-level pending `Set` of note
ids plus a nullable timer handle.  A call adds its id to the set; if the
timer handle is non-null it returns immediately, otherwise it arms a
`setTimeout` with a fixed 300 ms delay.  The callback drains the set,
nulls the handle, and processes the drained batch. -/

/-- State of one debounce instance: the pending id set (a JavaScript `Set`
iterates in insertion order) and the armed timer's absolute fire time
(`none` when disarmed). -/
structure Debounce where
  pending : List Int
  deadline : Option Nat
deriving DecidableEq, Repr

/-- The fixed debounce delay (300 ms in both instances). -/
def debounceDelay : Nat := 300

/-- JavaScript `Set.add`: no-op on a present element, else append. -/
def setAdd (l : List Int) (id : Int) : List Int :=
  if id ∈ l then l else l ++ [id]

def debounceInit : Debounce := { pending := [], deadline := none }

/-- One call of the debounced entry point at time `t`: add the id to the
pending set; if a timer is armed return without touching it, else arm one
for `t + 300`. -/
def schedule (id : Int) (t : Nat) (s : Debounce) : Debounce :=
  match s.deadline with
  | some d => { pending := setAdd s.pending id, deadline := some d }
  | none => { pending := setAdd s.pending id, deadline := some (t + debounceDelay) }

/-- The timer callback: atomically drain the pending set, disarm, and
hand the drained ids to one processing pass. -/
def fireTimer (s : Debounce) : Debounce × List Int :=
  ({ pending := [], deadline := none }, s.pending)

/-- Scheduler events: `sched id t` is a call to the debounced entry point
at time `t`; `fire` is the armed timer going off at its deadline. -/
inductive DebEvent where
  | sched (id : Int) (t : Nat)
  | fire
deriving DecidableEq, Repr

/-- Run a list of events, collecting the processed batches in order. -/
def runEvents : List DebEvent → Debounce → Debounce × List (List Int)
  | [], s => (s, [])
  | DebEvent.sched id t :: rest, s => runEvents rest (schedule id t s)
  | DebEvent.fire :: rest, s =>
      let s' := fireTimer s
      let rest' := runEvents rest s'.1
      (rest'.1, s'.2 :: rest'.2)

/-! ## Post-save pipeline chaining (src/database/types.ts)

`createNote` (lines 179–183) runs
`processNoteEmbeddings(noteId).then(() => processRecallScript(noteId))`:
`processNoteEmbeddings` awaits the whole embedding pass, so its promise
resolves only when the pass completes.

`updateNote` (lines 258–261) runs
`updateNoteEmbeddings(input.id).then(() => updateRecallScript(input.id))`
under the same "sequential to avoid context conflicts" comment — but
`updateNoteEmbeddings` (src/lib/selectReminisceNotes.ts lines 330–355)
returns right after `pendingNotes.add` / `setTimeout`: its promise
resolves at the call time, not at batch completion.  `updateRecallScript`
is therefore invoked immediately and arms its own 300 ms timer; both
timers are due one tick apart.  When the embedding callback reaches its
first `await` of genuinely asynchronous work (store reads, the model
call), control returns to the event loop, which runs the script timer
callback that is already due — so script generation starts while the
embedding batch is still in flight whenever that batch performs any
asynchronous work. -/

/-- `createNote`: embedding pipeline runs `[t0, t0 + embedWork]`. -/
def createFlowEmbedDone (t0 embedWork : Nat) : Nat := t0 + embedWork

/-- `createNote`: `processRecallScript` is invoked when the awaited
`processNoteEmbeddings` promise resolves. -/
def createFlowScriptStart (t0 embedWork : Nat) : Nat := t0 + embedWork

/-- `updateNote`: the time at which the `updateNoteEmbeddings(...)` promise
resolves — immediately at the call, once the timer is armed. -/
def updateFlowEmbedResolve (t0 : Nat) : Nat := t0

/-- `updateNote`: `updateRecallScript` is invoked by the `.then` as soon as
the scheduling promise resolves. -/
def updateFlowScriptSchedule (t0 : Nat) : Nat := updateFlowEmbedResolve t0

/-- `updateNote`: the embedding batch callback starts at its timer's
deadline. -/
def updateFlowEmbedBatchStart (t0 : Nat) : Nat := t0 + debounceDelay

/-- `updateNote`: the embedding batch completes after its asynchronous
store/model work (`embedWork > 0` for any real call). -/
def updateFlowEmbedBatchDone (t0 embedWork : Nat) : Nat :=
  updateFlowEmbedBatchStart t0 + embedWork

/-- `updateNote`: the script batch callback starts at the script timer's
deadline, reached while the embedding batch is suspended on its first
await. -/
def updateFlowScriptBatchStart (t0 : Nat) : Nat :=
  updateFlowScriptSchedule t0 + debounceDelay

/-! ## Similarity retrieval engine (src/lib/retrieveRelevantNotes.ts lines 65–186)

`cosineSimilarity` (lines 24–37) computes `dot(a,b)/(‖a‖·‖b‖)` over
floats; a square root has no exact executable embedding, so the engine is
modelled parametrically in the pure similarity function `sim` — the
partial application `cosineSimilarity(queryEmbedding, ·)` — which is all
the selection logic depends on.  The row lists are the rows returned by
the two `status = 'completed'` SELECTs (lines 76–84). -/

/-- `RETRIEVAL_CONFIG.SIMILARITY_THRESHOLD` (line 7). -/
def SIMILARITY_THRESHOLD : ℚ := 1 / 2

/-- `RETRIEVAL_CONFIG.RELATIVE_THRESHOLD` (line 8). -/
def RELATIVE_THRESHOLD : ℚ := 3 / 4

/-- `RETRIEVAL_CONFIG.TOP_K` (line 5), the default `topK`. -/
def TOP_K : Nat := 2

/-- One row of the embedding scan: the owning note's id and the stored
blob (for image rows, `noteId` is the joined `images.noteId`). -/
structure EmbRow where
  noteId : Int
  blob : Blob
deriving DecidableEq, Repr

inductive MatchType where
  | text
  | image
deriving DecidableEq, Repr

/-- One entry of the `noteMatches` map (line 73): `noteId -> score,
matchType`.  A JavaScript `Map` iterates in key-insertion order and `set`
on a present key updates the value in place, so the map is an
insertion-ordered association list. -/
structure MatchEntry where
  noteId : Int
  score : ℚ
  matchType : MatchType
deriving DecidableEq, Repr

/-- `noteMatches.get(noteId)`: first (only) entry with the key. -/
def lookupMatch : List MatchEntry → Int → Option MatchEntry
  | [], _ => none
  | e :: rest, n => if e.noteId = n then some e else lookupMatch rest n

/-- `noteMatches.set(...)`: replace in place if the key is present, else
append. -/
def mapSet : List MatchEntry → MatchEntry → List MatchEntry
  | [], e => [e]
  | x :: rest, e => if x.noteId = e.noteId then e :: rest else x :: mapSet rest e

/-- The body of the two scan loops (lines 87–128): decode the blob — a
decode failure skips just this row (the per-row `try`/`catch`) — compute
the similarity, and if it clears the absolute floor record it when the
note has no entry yet or this score is strictly better. -/
def processRow (sim : List Nat → ℚ) (ty : MatchType)
    (m : List MatchEntry) (row : EmbRow) : List MatchEntry :=
  match blobToEmbedding row.blob with
  | .error _ => m
  | .ok v =>
      let similarity := sim v
      if SIMILARITY_THRESHOLD ≤ similarity then
        match lookupMatch m row.noteId with
        | none => mapSet m { noteId := row.noteId, score := similarity, matchType := ty }
        | some e =>
            if e.score < similarity then
              mapSet m { noteId := row.noteId, score := similarity, matchType := ty }
            else m
      else m

/-- One scan loop over its rows. -/
def processRows (sim : List Nat → ℚ) (ty : MatchType)
    (m : List MatchEntry) (rows : List EmbRow) : List MatchEntry :=
  rows.foldl (processRow sim ty) m

/-- The `noteMatches` map after both loops: text rows first (lines
87–107), then image rows (lines 110–128). -/
def noteMatchesOf (sim : List Nat → ℚ) (textRows imageRows : List EmbRow) :
    List MatchEntry :=
  processRows sim MatchType.image (processRows sim MatchType.text [] textRows) imageRows

/-- The sort comparator `([, a], [, b]) => b.score - a.score` (line 132):
descending by score, stable. -/
def matchDesc (a b : MatchEntry) : Prop := b.score ≤ a.score

instance : DecidableRel matchDesc := fun a b => inferInstanceAs (Decidable (b.score ≤ a.score))

instance : IsTotal MatchEntry matchDesc := ⟨fun a b => le_total b.score a.score⟩

instance : IsTrans MatchEntry matchDesc := ⟨fun _ _ _ h1 h2 => le_trans h2 h1⟩

/-- `sortedMatches` (lines 131–132). -/
def sortedMatchesOf (sim : List Nat → ℚ) (textRows imageRows : List EmbRow) :
    List MatchEntry :=
  List.insertionSort matchDesc (noteMatchesOf sim textRows imageRows)

/-- The relative filtering (lines 135–142): index 0 is always kept; every
later entry is kept iff its score is at least
`topScore * RELATIVE_THRESHOLD`. -/
def relFilter : List MatchEntry → List MatchEntry
  | [] => []
  | top :: rest =>
      top :: rest.filter fun e => decide (top.score * RELATIVE_THRESHOLD ≤ e.score)

/-- `RetrievedNote` (lines 12–21); images are `(uri, description)` pairs. -/
structure RetrievedNote where
  noteId : Int
  title : String
  content : String
  tags : List String
  images : List (String × String)
  audioUri : Option String
  similarityScore : ℚ
  matchType : MatchType
deriving DecidableEq, Repr

/-- One step of the hydration loop (lines 148–176): fetch the surviving
note by id — `tab` is `getNoteById`, with `none` covering both a missing
row and a per-note fetch failure — and build the `RetrievedNote`
(`audioUri: note.audioUri || undefined` maps the empty string to
`undefined`). -/
def hydrateOne (tab : Int → Option NoteWithDetails) (e : MatchEntry) :
    Option RetrievedNote :=
  (tab e.noteId).map fun note =>
    { noteId := note.id
      title := note.title
      content := note.content
      tags := note.tags.map Tag.name
      images := note.images.map fun img => (img.uri, img.description)
      audioUri := match note.audioUri with
        | none => none
        | some s => if s = "" then none else some s
      similarityScore := e.score
      matchType := e.matchType }

/-- The hydration step (lines 147–181): hydrate every surviving match and
silently drop only the notes that fail. -/
def hydrate (tab : Int → Option NoteWithDetails) (finalMatches : List MatchEntry) :
    List RetrievedNote :=
  finalMatches.filterMap (hydrateOne tab)

/-- `retrieveRelevantNotes` (src/lib/retrieveRelevantNotes.ts lines
65–186): scan, rank, relative-filter, truncate to `topK`, hydrate. -/
def retrieveRelevantNotes (sim : List Nat → ℚ) (textRows imageRows : List EmbRow)
    (topK : Nat) (tab : Int → Option NoteWithDetails) : List RetrievedNote :=
  hydrate tab (((relFilter (sortedMatchesOf sim textRows imageRows))).take topK)

/-! Specification-side characterisations used to state the claims. -/

/-- The similarity of one row, `none` when its blob fails to decode. -/
def rowSim (sim : List Nat → ℚ) (row : EmbRow) : Option ℚ :=
  match blobToEmbedding row.blob with
  | .error _ => none
  | .ok v => some (sim v)

/-- Maximum of two optional scores. -/
def omax : Option ℚ → Option ℚ → Option ℚ
  | none, b => b
  | some a, none => some a
  | some a, some b => some (max a b)

/-- Best (maximal) value of `f` over the rows of note `n`. -/
def foldBest (f : EmbRow → Option ℚ) (n : Int) (rows : List EmbRow) : Option ℚ :=
  rows.foldl (fun acc row => if row.noteId = n then omax acc (f row) else acc) none

/-- A note's best similarity across all its decodable rows. -/
def bestScore (sim : List Nat → ℚ) (n : Int) (rows : List EmbRow) : Option ℚ :=
  foldBest (rowSim sim) n rows

/-- Keep a score only when it clears the absolute floor. -/
def aboveFloor (s : ℚ) : Option ℚ :=
  if SIMILARITY_THRESHOLD ≤ s then some s else none

/-- A note's best similarity restricted to rows clearing the floor. -/
def bestAbove (sim : List Nat → ℚ) (n : Int) (rows : List EmbRow) : Option ℚ :=
  foldBest (fun row => (rowSim sim row).bind aboveFloor) n rows

/-- The score recorded for note `n` in a match map. -/
def lookupScore (m : List MatchEntry) (n : Int) : Option ℚ :=
  (lookupMatch m n).map MatchEntry.score

/-- A degenerate hydration table for the worked example: every id resolves
to a bare note with that id. -/
def exTab : Int → Option NoteWithDetails := fun n =>
  some { id := n, title := "", content := "", audioUri := none,
         recallScript := none, lastShownInReminisce := none,
         createdAt := 0, updatedAt := 0, tags := [], images := [] }

/-- A stored text-embedding row for note `n` whose decoded vector is the
one-element pattern `[w]`. -/
def exRow (n : Int) (w : Nat) : EmbRow :=
  { noteId := n, blob := embeddingToBlob [w] }

/-- The example similarity: the query scores 0.82 against note 1's vector
`[1]`, 0.55 against note 2's vector `[2]`, 0.20 against anything else. -/
def exSim : List Nat → ℚ := fun v =>
  if v = [1] then 82 / 100 else if v = [2] then 55 / 100 else 20 / 100

end MemoriQ

namespace MemoriQ

theorem bytesToFloats_wordBytes_append (w : Nat) (hw : w < 4294967296)
    (rest : List Nat) :
    bytesToFloats (wordBytes w ++ rest) = w :: bytesToFloats rest := by
  simp only [wordBytes, List.cons_append, List.nil_append, bytesToFloats]
  congr 1
  omega

theorem bytesToFloats_length (bs : List Nat) :
    (bytesToFloats bs).length = bs.length / 4 := by
  induction bs using bytesToFloats.induct with
  | case1 b0 b1 b2 b3 rest ih =>
      simp only [bytesToFloats, List.length_cons, ih]
      omega
  | case2 bs h =>
      match bs with
      | [] => simp [bytesToFloats]
      | [b0] => simp [bytesToFloats]
      | [b0, b1] => simp [bytesToFloats]
      | [b0, b1, b2] => simp [bytesToFloats]
      | b0 :: b1 :: b2 :: b3 :: rest => exact absurd rfl (h b0 b1 b2 b3 rest)

/-- C4: round-trip of the codec on well-formed float32 patterns. -/
theorem blobToEmbedding_embeddingToBlob (v : List Nat)
    (hv : ∀ w ∈ v, w < 4294967296) :
    blobToEmbedding (embeddingToBlob v) = .ok v := by
  simp only [embeddingToBlob, blobToEmbedding, Except.ok.injEq]
  induction v with
  | nil => simp [bytesToFloats]
  | cons w ws ih =>
      rw [List.flatMap_cons,
        bytesToFloats_wordBytes_append w (hv w (List.mem_cons_self w ws))]
      rw [ih fun x hx => hv x (List.mem_cons_of_mem w hx)]

end MemoriQ

/-- C4: for every float32 vector `v` (each element a well-formed 32-bit
pattern — in particular every finite value), decoding the encoded storage
blob returns `v` exactly: `blobToEmbedding (embeddingToBlob v) = v`, with 4
bytes per element in little-endian (native) byte order. -/
theorem C4_codec_roundtrip (v : List Nat) (hv : ∀ w ∈ v, w < 4294967296) :
    MemoriQ.blobToEmbedding (MemoriQ.embeddingToBlob v) = .ok v :=
  MemoriQ.blobToEmbedding_embeddingToBlob v hv

/-- Witness for C4 at the concrete vector `[0, 1065353216, 4294967295]`
(the patterns of 0.0f, 1.0f and a NaN). -/
theorem C4_codec_roundtrip_witness :
    MemoriQ.blobToEmbedding (MemoriQ.embeddingToBlob [0, 1065353216, 4294967295]) =
      .ok [0, 1065353216, 4294967295] :=
  C4_codec_roundtrip [0, 1065353216, 4294967295] (by decide)

/-- C3 counterexample: a 5-byte `Uint8Array` blob — byte length 5 is not a
multiple of 4 — decodes successfully (to the single float32 pattern built
from the first 4 bytes) instead of failing with a malformed-data error. -/
theorem C3_counterexample :
    (MemoriQ.Blob.uint8 [1, 2, 3, 4, 5]).bytes.length % 4 ≠ 0 ∧
      MemoriQ.blobToEmbedding (MemoriQ.Blob.uint8 [1, 2, 3, 4, 5]) =
        .ok [67305985] := by
  constructor
  · decide
  · rfl

/-- C3 amended: `blobToEmbedding` fails with an error for `ArrayBuffer`
inputs whose byte length is not a multiple of 4 (and for unsupported blob
types); for `Uint8Array` and duck-typed buffer-view inputs the fractional
element count is truncated, so decoding succeeds, returns
`floor(byteLength / 4)` elements, and silently ignores the trailing bytes. -/
theorem C3_decode_length_behaviour :
    (∀ bs : List Nat, bs.length % 4 ≠ 0 →
        ∃ e, MemoriQ.blobToEmbedding (MemoriQ.Blob.arrayBuffer bs) = .error e) ∧
      (∀ bs : List Nat,
        MemoriQ.blobToEmbedding (MemoriQ.Blob.uint8 bs) =
            .ok (MemoriQ.bytesToFloats bs) ∧
          (MemoriQ.bytesToFloats bs).length = bs.length / 4) ∧
      (∃ e, MemoriQ.blobToEmbedding MemoriQ.Blob.unsupported = .error e) := by
  refine ⟨fun bs h => ?_, fun bs => ⟨rfl, MemoriQ.bytesToFloats_length bs⟩, ⟨_, rfl⟩⟩
  exact ⟨"RangeError: byte length of Float32Array should be a multiple of 4",
    by simp [MemoriQ.blobToEmbedding, h]⟩

/-- Witness for C3's amended statement at a concrete 5-byte input. -/
theorem C3_decode_length_behaviour_witness :
    (∃ e, MemoriQ.blobToEmbedding (MemoriQ.Blob.arrayBuffer [1, 2, 3, 4, 5]) = .error e) ∧
      MemoriQ.blobToEmbedding (MemoriQ.Blob.uint8 [1, 2, 3, 4, 5]) =
        .ok (MemoriQ.bytesToFloats [1, 2, 3, 4, 5]) ∧
      (MemoriQ.bytesToFloats [1, 2, 3, 4, 5]).length = [1, 2, 3, 4, 5].length / 4 :=
  ⟨C3_decode_length_behaviour.1 [1, 2, 3, 4, 5] (by decide),
    C3_decode_length_behaviour.2.1 [1, 2, 3, 4, 5]⟩

/-- C2: for every note whose composed text fingerprint (hash of the
tags/title/content composition) equals the fingerprint stored in that
note's `note_embeddings` row, `generateNoteTextEmbedding` returns with the
row unchanged, performing no embedding-capability call and no store
write. -/
theorem C2_fingerprint_short_circuit (hashF : String → String)
    (note : Option MemoriQ.NoteText) (existing : Option MemoriQ.EmbRecord)
    (ctxAvailable : Bool) (embedResult : MemoriQ.EmbedCallResult) (now : Int)
    (nt : MemoriQ.NoteText) (r : MemoriQ.EmbRecord)
    (hnote : note = some nt) (hex : existing = some r)
    (hhash : r.textHash = hashF (MemoriQ.combineNoteText nt.title nt.content nt.tagNames)) :
    MemoriQ.generateNoteTextEmbedding hashF note existing ctxAvailable embedResult now =
      (existing, []) := by
  subst hnote hex
  simp [MemoriQ.generateNoteTextEmbedding, hhash]

/-- Witness for C2: a concrete note with one tag, the identity digest, and
a stored row whose fingerprint equals the composed text. -/
theorem C2_fingerprint_short_circuit_witness :
    MemoriQ.generateNoteTextEmbedding (fun s => s)
        (some { title := "t", content := "c", tagNames := ["a"] })
        (some { embedding := [1], embeddingDimensions := 1,
                textHash := "Tags: a\n\nt\n\nc", status := MemoriQ.EmbStatus.completed,
                createdAt := 5 })
        true MemoriQ.EmbedCallResult.throws 7 =
      (some { embedding := [1], embeddingDimensions := 1,
              textHash := "Tags: a\n\nt\n\nc", status := MemoriQ.EmbStatus.completed,
              createdAt := 5 }, []) :=
  C2_fingerprint_short_circuit (fun s => s)
    (some { title := "t", content := "c", tagNames := ["a"] })
    (some { embedding := [1], embeddingDimensions := 1,
            textHash := "Tags: a\n\nt\n\nc", status := MemoriQ.EmbStatus.completed,
            createdAt := 5 })
    true MemoriQ.EmbedCallResult.throws 7
    { title := "t", content := "c", tagNames := ["a"] }
    { embedding := [1], embeddingDimensions := 1,
      textHash := "Tags: a\n\nt\n\nc", status := MemoriQ.EmbStatus.completed,
      createdAt := 5 }
    rfl rfl (by decide)

/-- C5: when the embedding capability throws or returns a missing/empty
vector (and the call actually reaches the capability: note loaded, no
fingerprint match, context available), an existing `note_embeddings` row
has exactly its `status` set to `failed` — vector, hash and the other
columns untouched — and when no row exists none is created; the function
returns normally (it is total), so no exception reaches the caller. -/
theorem C5_failure_sets_status_failed (hashF : String → String)
    (nt : MemoriQ.NoteText) (existing : Option MemoriQ.EmbRecord)
    (embedResult : MemoriQ.EmbedCallResult) (now : Int)
    (hfail : embedResult = MemoriQ.EmbedCallResult.throws ∨
      embedResult = MemoriQ.EmbedCallResult.value none ∨
      embedResult = MemoriQ.EmbedCallResult.value (some []))
    (hnomatch : ∀ r, existing = some r →
      r.textHash ≠ hashF (MemoriQ.combineNoteText nt.title nt.content nt.tagNames)) :
    (MemoriQ.generateNoteTextEmbedding hashF (some nt) existing true embedResult now).1 =
      Option.map (fun r => { r with status := MemoriQ.EmbStatus.failed }) existing := by
  cases existing with
  | none =>
      rcases hfail with h | h | h <;> subst h <;>
        simp [MemoriQ.generateNoteTextEmbedding, MemoriQ.embedAndStore, MemoriQ.setFailed]
  | some r =>
      have hne := hnomatch r rfl
      rcases hfail with h | h | h <;> subst h <;>
        simp [MemoriQ.generateNoteTextEmbedding, MemoriQ.embedAndStore, MemoriQ.setFailed, hne]

/-- Witness for C5: concrete failing call with an existing row (status
flips to `failed`, everything else kept). -/
theorem C5_failure_sets_status_failed_witness :
    (MemoriQ.generateNoteTextEmbedding (fun s => s)
        (some { title := "t", content := "c", tagNames := [] })
        (some { embedding := [2], embeddingDimensions := 1, textHash := "old",
                status := MemoriQ.EmbStatus.completed, createdAt := 3 })
        true MemoriQ.EmbedCallResult.throws 9).1 =
      some { embedding := [2], embeddingDimensions := 1, textHash := "old",
             status := MemoriQ.EmbStatus.failed, createdAt := 3 } :=
  C5_failure_sets_status_failed (fun s => s)
    { title := "t", content := "c", tagNames := [] }
    (some { embedding := [2], embeddingDimensions := 1, textHash := "old",
            status := MemoriQ.EmbStatus.completed, createdAt := 3 })
    MemoriQ.EmbedCallResult.throws 9
    (Or.inl rfl)
    (by intro r hr; cases hr; decide)

/-- C10: `generateQueryEmbedding` never throws (the model is a total
function): it returns `none` when the embedding context is unavailable,
when the capability call throws, and when the returned embedding is
missing or empty; otherwise it returns the embedding vector together with
the trimmed input text. -/
theorem C10_query_embedding_cases (ctxAvailable : Bool)
    (embedFn : String → MemoriQ.EmbedCallResult) (text : String) :
    (ctxAvailable = false →
      MemoriQ.generateQueryEmbedding ctxAvailable embedFn text = none) ∧
    (embedFn (MemoriQ.jsTrim text) = MemoriQ.EmbedCallResult.throws →
      MemoriQ.generateQueryEmbedding ctxAvailable embedFn text = none) ∧
    (embedFn (MemoriQ.jsTrim text) = MemoriQ.EmbedCallResult.value none →
      MemoriQ.generateQueryEmbedding ctxAvailable embedFn text = none) ∧
    (embedFn (MemoriQ.jsTrim text) = MemoriQ.EmbedCallResult.value (some []) →
      MemoriQ.generateQueryEmbedding ctxAvailable embedFn text = none) ∧
    (∀ emb : List ℚ, ctxAvailable = true → emb ≠ [] →
      embedFn (MemoriQ.jsTrim text) = MemoriQ.EmbedCallResult.value (some emb) →
      MemoriQ.generateQueryEmbedding ctxAvailable embedFn text =
        some (emb, MemoriQ.jsTrim text)) := by
  refine ⟨fun hc => by simp [MemoriQ.generateQueryEmbedding, hc], ?_, ?_, ?_, ?_⟩
  · intro he
    cases ctxAvailable <;> simp [MemoriQ.generateQueryEmbedding, he]
  · intro he
    cases ctxAvailable <;> simp [MemoriQ.generateQueryEmbedding, he]
  · intro he
    cases ctxAvailable <;> simp [MemoriQ.generateQueryEmbedding, he]
  · intro emb hc hne he
    subst hc
    simp [MemoriQ.generateQueryEmbedding, he, List.length_eq_zero, hne]

/-- Witness for C10: a concrete successful call returns the vector and the
trimmed text; the same `embedFn` with the context unavailable returns
`none`. -/
theorem C10_query_embedding_cases_witness :
    MemoriQ.generateQueryEmbedding true
        (fun _ => MemoriQ.EmbedCallResult.value (some [1, 2])) "  hi " =
      some ([1, 2], "hi") ∧
    MemoriQ.generateQueryEmbedding false
        (fun _ => MemoriQ.EmbedCallResult.value (some [1, 2])) "  hi " = none := by
  constructor
  · have h := (C10_query_embedding_cases true
      (fun _ => MemoriQ.EmbedCallResult.value (some [1, 2])) "  hi ").2.2.2.2
      [1, 2] rfl (by decide) (by rfl)
    rw [h]
    rfl
  · exact (C10_query_embedding_cases false
      (fun _ => MemoriQ.EmbedCallResult.value (some [1, 2])) "  hi ").1 rfl

namespace MemoriQ

theorem set_self_eq {α : Type*} (l : List α) (i : Nat) (h : i < l.length) :
    l.set i l[i] = l := by
  apply List.ext_getElem
  · simp
  · intro n h1 h2
    rw [List.getElem_set]
    split
    · subst_vars; rfl
    · rfl

theorem swapAt_perm {α : Type*} [DecidableEq α] (l : List α) (i j : Nat) :
    (swapAt l i j).Perm l := by
  by_cases hi : i < l.length
  case neg =>
    have : l[i]? = none := List.getElem?_eq_none (le_of_not_lt hi)
    simp [swapAt, this]
  by_cases hj : j < l.length
  case neg =>
    have : l[j]? = none := List.getElem?_eq_none (le_of_not_lt hj)
    simp [swapAt, this]
  simp only [swapAt, List.getElem?_eq_getElem hi, List.getElem?_eq_getElem hj]
  by_cases hij : i = j
  · subst hij
    rw [List.set_set, set_self_eq l i hi]
  · rw [List.perm_iff_count]
    intro a
    have hj' : j < (l.set i l[j]).length := by simpa using hj
    have h2 := List.count_set l[i] a (l.set i l[j]) j hj'
    rw [List.getElem_set_ne hij hj'] at h2
    have h1 := List.count_set l[j] a l i hi
    have hmi : l[i] ∈ l := List.getElem_mem hi
    have hmj : l[j] ∈ l := List.getElem_mem hj
    by_cases e1 : l[i] = a
    · have hb1 : (l[i] == a) = true := beq_iff_eq.mpr e1
      have c1 : 1 ≤ List.count a l := by
        rw [← e1] at *
        exact List.count_pos_iff.mpr hmi
      by_cases e2 : l[j] = a
      · have hb2 : (l[j] == a) = true := beq_iff_eq.mpr e2
        simp only [hb1, hb2, if_true] at h1 h2
        omega
      · have hb2 : (l[j] == a) = false := beq_eq_false_iff_ne.mpr e2
        simp only [hb1, hb2, if_true, Bool.false_eq_true, if_false] at h1 h2
        omega
    · have hb1 : (l[i] == a) = false := beq_eq_false_iff_ne.mpr e1
      by_cases e2 : l[j] = a
      · have c2 : 1 ≤ List.count a l := by
          rw [← e2] at *
          exact List.count_pos_iff.mpr hmj
        have hb2 : (l[j] == a) = true := beq_iff_eq.mpr e2
        simp only [hb1, hb2, if_true, Bool.false_eq_true, if_false] at h1 h2
        omega
      · have hb2 : (l[j] == a) = false := beq_eq_false_iff_ne.mpr e2
        simp only [hb1, hb2, Bool.false_eq_true, if_false] at h1 h2
        omega

theorem fisherYatesAux_perm {α : Type*} [DecidableEq α] (js : Nat → Nat) :
    ∀ (n : Nat) (l : List α), (fisherYatesAux js n l).Perm l
  | 0, l => List.Perm.refl l
  | n + 1, l =>
      (fisherYatesAux_perm js n (swapAt l (n + 1) (js (n + 1)))).trans
        (swapAt_perm l (n + 1) (js (n + 1)))

theorem shuffle_perm {α : Type*} [DecidableEq α] (js : Nat → Nat) (l : List α) :
    (shuffle js l).Perm l :=
  fisherYatesAux_perm js (l.length - 1) l

theorem scoredOf_snd {now : Int} {allNotes : List NoteWithDetails}
    {p : NoteWithDetails × ℚ} (hp : p ∈ scoredOf now allNotes) :
    p.2 = noteScore now p.1 := by
  obtain ⟨n, _, rfl⟩ := List.mem_map.mp hp
  rfl

theorem scoredOf_map_fst (now : Int) (allNotes : List NoteWithDetails) :
    (scoredOf now allNotes).map Prod.fst = allNotes := by
  have : (Prod.fst ∘ fun note : NoteWithDetails => (note, noteScore now note)) = id := rfl
  rw [scoredOf, List.map_map, this, List.map_id]

set_option maxRecDepth 8192 in
theorem exampleNoteA_score : noteScore exampleNow exampleNoteA = 20065 := by
  have h1 : ageInDays exampleNow exampleNoteA = 10 := by decide
  have h2 : daysSinceLastShown exampleNow exampleNoteA = 9999 := rfl
  have h3 : exampleNoteA.content.length = 200 := by decide
  have h4 : truthyStr exampleNoteA.recallScript = true := rfl
  have h5 : exampleNoteA.images.length = 1 := rfl
  simp only [noteScore, h1, h2, h3, h4, h5]
  norm_num

set_option maxRecDepth 8192 in
theorem exampleNoteB_score : noteScore exampleNow exampleNoteB = -99 := by
  have h1 : ageInDays exampleNow exampleNoteB = 1 := by decide
  have h2 : daysSinceLastShown exampleNow exampleNoteB = 0 := by decide
  have h3 : exampleNoteB.content.length = 50 := by decide
  have h4 : truthyStr exampleNoteB.recallScript = false := rfl
  have h5 : exampleNoteB.images.length = 0 := rfl
  simp only [noteScore, h1, h2, h3, h4, h5]
  norm_num

end MemoriQ

/-- C6: when the candidate pool is larger than the requested count,
`selectReminisceNotes` scores each note as
`(hasImages ? 50 : 0) + 0.5*ageInDays + 0.01*contentLength
 + 2*daysSinceLastShown (9999 when never shown) + (hasScript ? 10 : -100)`
and returns, in shuffled order, exactly `count` notes each of whose scores
is at least every rejected note's score; in particular the spec's example
note A (images, age 10 days, 200 characters, never shown, scripted) scores
20065, example note B (no images, age 1 day, 50 characters, shown now,
unscripted) scores -99, and A ranks strictly above B. -/
theorem C6_reminisce_selection (js : Nat → Nat) (now : Int) (count : Nat)
    (allNotes : List MemoriQ.NoteWithDetails)
    (hcount : count < allNotes.length) :
    (∃ sel rest : List MemoriQ.NoteWithDetails,
        (MemoriQ.selectReminisceNotes js now count allNotes).Perm sel ∧
        sel.length = count ∧
        allNotes.Perm (sel ++ rest) ∧
        ∀ a ∈ sel, ∀ b ∈ rest,
          MemoriQ.noteScore now b ≤ MemoriQ.noteScore now a) ∧
      MemoriQ.noteScore MemoriQ.exampleNow MemoriQ.exampleNoteA = 20065 ∧
      MemoriQ.noteScore MemoriQ.exampleNow MemoriQ.exampleNoteB = -99 ∧
      MemoriQ.noteScore MemoriQ.exampleNow MemoriQ.exampleNoteB <
        MemoriQ.noteScore MemoriQ.exampleNow MemoriQ.exampleNoteA := by
  refine ⟨?_, MemoriQ.exampleNoteA_score, MemoriQ.exampleNoteB_score, by
    rw [MemoriQ.exampleNoteA_score, MemoriQ.exampleNoteB_score]; norm_num⟩
  refine ⟨((MemoriQ.sortedOf now allNotes).take count).map Prod.fst,
    ((MemoriQ.sortedOf now allNotes).drop count).map Prod.fst, ?_, ?_, ?_, ?_⟩
  · have h0 : ¬ allNotes.length = 0 := by omega
    have h1 : ¬ allNotes.length ≤ count := by omega
    unfold MemoriQ.selectReminisceNotes
    rw [if_neg h0, if_neg h1]
    exact MemoriQ.shuffle_perm js _
  · have hlen : (MemoriQ.sortedOf now allNotes).length = allNotes.length := by
      rw [MemoriQ.sortedOf, List.length_insertionSort, MemoriQ.scoredOf, List.length_map]
    simp only [List.length_map, List.length_take, hlen]
    omega
  · have hperm : (MemoriQ.sortedOf now allNotes).Perm (MemoriQ.scoredOf now allNotes) :=
      List.perm_insertionSort _ _
    have hsplit : ((MemoriQ.sortedOf now allNotes).take count).map Prod.fst ++
        ((MemoriQ.sortedOf now allNotes).drop count).map Prod.fst =
        (MemoriQ.sortedOf now allNotes).map Prod.fst := by
      rw [← List.map_append, List.take_append_drop]
    have hall : allNotes.Perm ((MemoriQ.sortedOf now allNotes).map Prod.fst) := by
      conv_lhs => rw [← MemoriQ.scoredOf_map_fst now allNotes]
      exact (hperm.map Prod.fst).symm
    rw [hsplit]
    exact hall
  · intro a ha b hb
    obtain ⟨p, hp, rfl⟩ := List.mem_map.mp ha
    obtain ⟨q, hq, rfl⟩ := List.mem_map.mp hb
    have hsorted : List.Sorted MemoriQ.scoreDesc (MemoriQ.sortedOf now allNotes) :=
      List.sorted_insertionSort _ _
    have hrel : MemoriQ.scoreDesc p q := hsorted.rel_of_mem_take_of_mem_drop hp hq
    have hpmem : p ∈ MemoriQ.scoredOf now allNotes :=
      (List.mem_insertionSort _).mp (List.mem_of_mem_take hp)
    have hqmem : q ∈ MemoriQ.scoredOf now allNotes :=
      (List.mem_insertionSort _).mp (List.mem_of_mem_drop hq)
    have hps := MemoriQ.scoredOf_snd hpmem
    have hqs := MemoriQ.scoredOf_snd hqmem
    rw [← hps, ← hqs]
    exact hrel

/-- Witness for C6 at the concrete pool `[exampleNoteA, exampleNoteB]`
with `count = 1` and the identity random draws. -/
theorem C6_reminisce_selection_witness :
    (∃ sel rest : List MemoriQ.NoteWithDetails,
        (MemoriQ.selectReminisceNotes (fun _ => 0) MemoriQ.exampleNow 1
          [MemoriQ.exampleNoteA, MemoriQ.exampleNoteB]).Perm sel ∧
        sel.length = 1 ∧
        ([MemoriQ.exampleNoteA, MemoriQ.exampleNoteB] :
          List MemoriQ.NoteWithDetails).Perm (sel ++ rest) ∧
        ∀ a ∈ sel, ∀ b ∈ rest,
          MemoriQ.noteScore MemoriQ.exampleNow b ≤ MemoriQ.noteScore MemoriQ.exampleNow a) ∧
      MemoriQ.noteScore MemoriQ.exampleNow MemoriQ.exampleNoteA = 20065 ∧
      MemoriQ.noteScore MemoriQ.exampleNow MemoriQ.exampleNoteB = -99 ∧
      MemoriQ.noteScore MemoriQ.exampleNow MemoriQ.exampleNoteB <
        MemoriQ.noteScore MemoriQ.exampleNow MemoriQ.exampleNoteA :=
  C6_reminisce_selection (fun _ => 0) MemoriQ.exampleNow 1
    [MemoriQ.exampleNoteA, MemoriQ.exampleNoteB] (by decide)

/-- C7: three calls of the debounced scheduler for the same id within the
300 ms window while the timer is armed leave the armed deadline untouched
(the second and third calls only re-insert the id into the pending set, so
the state is unchanged), and when the timer fires after the delay there is
exactly one processing pass, covering exactly that id. -/
theorem C7_debounce_coalesces (id : Int) (t0 t1 t2 : Nat)
    (h01 : t0 ≤ t1) (h12 : t1 ≤ t2) (hwin : t2 < t0 + MemoriQ.debounceDelay) :
    (MemoriQ.schedule id t0 MemoriQ.debounceInit).deadline =
        some (t0 + MemoriQ.debounceDelay) ∧
      MemoriQ.schedule id t1 (MemoriQ.schedule id t0 MemoriQ.debounceInit) =
        MemoriQ.schedule id t0 MemoriQ.debounceInit ∧
      MemoriQ.schedule id t2
          (MemoriQ.schedule id t1 (MemoriQ.schedule id t0 MemoriQ.debounceInit)) =
        MemoriQ.schedule id t0 MemoriQ.debounceInit ∧
      MemoriQ.runEvents
          [MemoriQ.DebEvent.sched id t0, MemoriQ.DebEvent.sched id t1,
            MemoriQ.DebEvent.sched id t2, MemoriQ.DebEvent.fire]
          MemoriQ.debounceInit =
        (MemoriQ.debounceInit, [[id]]) := by
  refine ⟨rfl, ?_, ?_, ?_⟩ <;>
    simp [MemoriQ.schedule, MemoriQ.setAdd, MemoriQ.debounceInit, MemoriQ.runEvents,
      MemoriQ.fireTimer]

/-- Witness for C7 at `id = 7`, call times 0, 100, 200. -/
theorem C7_debounce_coalesces_witness :
    (MemoriQ.schedule 7 0 MemoriQ.debounceInit).deadline =
        some (0 + MemoriQ.debounceDelay) ∧
      MemoriQ.schedule 7 100 (MemoriQ.schedule 7 0 MemoriQ.debounceInit) =
        MemoriQ.schedule 7 0 MemoriQ.debounceInit ∧
      MemoriQ.schedule 7 200
          (MemoriQ.schedule 7 100 (MemoriQ.schedule 7 0 MemoriQ.debounceInit)) =
        MemoriQ.schedule 7 0 MemoriQ.debounceInit ∧
      MemoriQ.runEvents
          [MemoriQ.DebEvent.sched 7 0, MemoriQ.DebEvent.sched 7 100,
            MemoriQ.DebEvent.sched 7 200, MemoriQ.DebEvent.fire]
          MemoriQ.debounceInit =
        (MemoriQ.debounceInit, [[7]]) :=
  C7_debounce_coalesces 7 0 100 200 (by decide) (by decide) (by decide)

/-- C9: in the `createNote` flow the script pipeline is invoked exactly at
embedding-pipeline completion, but in the `updateNote` flow the script
batch starts strictly before the embedding batch completes whenever the
embedding batch performs any work — the claim fails for updates because
`updateNoteEmbeddings` resolves when its debounce timer is armed, not when
processing finishes. -/
theorem C9_update_flow_script_overlaps_embeddings (t0 embedWork : Nat)
    (hwork : 0 < embedWork) :
    MemoriQ.createFlowScriptStart t0 embedWork =
        MemoriQ.createFlowEmbedDone t0 embedWork ∧
      MemoriQ.updateFlowScriptBatchStart t0 <
        MemoriQ.updateFlowEmbedBatchDone t0 embedWork := by
  constructor
  · rfl
  · simp only [MemoriQ.updateFlowScriptBatchStart, MemoriQ.updateFlowScriptSchedule,
      MemoriQ.updateFlowEmbedResolve, MemoriQ.updateFlowEmbedBatchDone,
      MemoriQ.updateFlowEmbedBatchStart]
    omega

/-- Witness for C9's evidence theorem with one unit of embedding work. -/
theorem C9_update_flow_script_overlaps_embeddings_witness :
    MemoriQ.createFlowScriptStart 0 1 = MemoriQ.createFlowEmbedDone 0 1 ∧
      MemoriQ.updateFlowScriptBatchStart 0 < MemoriQ.updateFlowEmbedBatchDone 0 1 :=
  C9_update_flow_script_overlaps_embeddings 0 1 (by decide)

namespace MemoriQ

theorem omax_none_right (a : Option ℚ) : omax a none = a := by
  cases a <;> rfl

theorem omax_none_left (a : Option ℚ) : omax none a = a := rfl

theorem omax_assoc (a b c : Option ℚ) : omax (omax a b) c = omax a (omax b c) := by
  cases a <;> cases b <;> cases c <;> simp [omax, max_assoc]

theorem bind_aboveFloor_omax (a b : Option ℚ) :
    (omax a b).bind aboveFloor = omax (a.bind aboveFloor) (b.bind aboveFloor) := by
  cases a with
  | none => rfl
  | some x =>
    cases b with
    | none => simp [omax_none_right]
    | some y =>
      by_cases hx : SIMILARITY_THRESHOLD ≤ x <;> by_cases hy : SIMILARITY_THRESHOLD ≤ y
      · simp [omax, aboveFloor, hx, hy, le_max_of_le_left hx]
      · have hyx : y ≤ x := le_trans (le_of_not_le hy) hx
        simp [omax, aboveFloor, hx, hy, max_eq_left hyx]
      · have hxy : x ≤ y := le_trans (le_of_not_le hx) hy
        simp [omax, aboveFloor, hx, hy, max_eq_right hxy]
      · have hm : ¬ SIMILARITY_THRESHOLD ≤ max x y :=
          not_le.mpr (max_lt (not_le.mp hx) (not_le.mp hy))
        simp [omax, aboveFloor, hx, hy, hm]

theorem foldBest_eq_omax (f : EmbRow → Option ℚ) (n : Int) (rows : List EmbRow) :
    ∀ acc : Option ℚ,
      rows.foldl (fun acc row => if row.noteId = n then omax acc (f row) else acc) acc =
        omax acc (foldBest f n rows) := by
  induction rows with
  | nil => intro acc; simp [foldBest, omax_none_right]
  | cons row rows ih =>
      intro acc
      have h2 : foldBest f n (row :: rows) =
          omax (if row.noteId = n then f row else none) (foldBest f n rows) := by
        simp only [foldBest, List.foldl_cons]
        rw [ih]
        by_cases h : row.noteId = n <;> simp [h, omax_none_left, foldBest]
      rw [h2, List.foldl_cons, ih]
      by_cases h : row.noteId = n
      · simp only [h, if_true]
        rw [omax_assoc]
      · simp [h, omax_none_left]

theorem foldBest_cons (f : EmbRow → Option ℚ) (n : Int) (row : EmbRow) (rows : List EmbRow) :
    foldBest f n (row :: rows) =
      omax (if row.noteId = n then f row else none) (foldBest f n rows) := by
  simp only [foldBest, List.foldl_cons]
  rw [foldBest_eq_omax]
  by_cases h : row.noteId = n <;> simp [h, omax_none_left, foldBest]

theorem foldBest_append (f : EmbRow → Option ℚ) (n : Int) (r1 r2 : List EmbRow) :
    foldBest f n (r1 ++ r2) = omax (foldBest f n r1) (foldBest f n r2) := by
  have h : foldBest f n (r1 ++ r2) =
      (r2.foldl (fun acc row => if row.noteId = n then omax acc (f row) else acc)
        (foldBest f n r1)) := by
    simp only [foldBest, List.foldl_append]
  rw [h, foldBest_eq_omax]

theorem bestAbove_eq (sim : List Nat → ℚ) (n : Int) (rows : List EmbRow) :
    bestAbove sim n rows = (bestScore sim n rows).bind aboveFloor := by
  induction rows with
  | nil => rfl
  | cons row rows ih =>
      simp only [bestAbove, bestScore] at ih ⊢
      rw [foldBest_cons, foldBest_cons, ih, bind_aboveFloor_omax]
      congr 1
      by_cases h : row.noteId = n <;> simp [h]

theorem lookupMatch_mapSet (m : List MatchEntry) (e : MatchEntry) (n : Int) :
    lookupMatch (mapSet m e) n = if e.noteId = n then some e else lookupMatch m n := by
  induction m with
  | nil => simp [mapSet, lookupMatch]
  | cons x rest ih =>
      by_cases hx : x.noteId = e.noteId
      · by_cases hn : e.noteId = n
        · simp [mapSet, hx, lookupMatch, hn]
        · have hxn : ¬ x.noteId = n := fun h => hn (hx.symm.trans h)
          simp [mapSet, hx, lookupMatch, hn, hxn]
      · by_cases hxn : x.noteId = n
        · have hen : ¬ e.noteId = n := fun h => hx (hxn.trans h.symm)
          have hne' : ¬ n = e.noteId := fun h => hen h.symm
          simp [mapSet, hx, lookupMatch, hxn, hen, hne']
        · simp [mapSet, hx, lookupMatch, hxn, ih]

theorem lookupMatch_eq_none (m : List MatchEntry) (n : Int) :
    lookupMatch m n = none ↔ ∀ e ∈ m, e.noteId ≠ n := by
  induction m with
  | nil => simp [lookupMatch]
  | cons x rest ih =>
      by_cases hx : x.noteId = n <;> simp [lookupMatch, hx, ih]

theorem lookupMatch_eq_some {m : List MatchEntry} {n : Int} {e : MatchEntry}
    (h : lookupMatch m n = some e) : e ∈ m ∧ e.noteId = n := by
  induction m with
  | nil => simp [lookupMatch] at h
  | cons x rest ih =>
      by_cases hx : x.noteId = n
      · simp only [lookupMatch, hx, if_true, Option.some.injEq] at h
        subst h
        exact ⟨List.mem_cons_self _ _, hx⟩
      · simp only [lookupMatch, hx, if_false] at h
        obtain ⟨h1, h2⟩ := ih h
        exact ⟨List.mem_cons_of_mem _ h1, h2⟩

theorem mem_mapSet {m : List MatchEntry} {e x : MatchEntry} (h : x ∈ mapSet m e) :
    x = e ∨ x ∈ m := by
  induction m with
  | nil =>
      simp [mapSet] at h
      exact Or.inl h
  | cons y rest ih =>
      by_cases hy : y.noteId = e.noteId
      · simp only [mapSet, hy, if_true, List.mem_cons] at h
        rcases h with h | h
        · exact Or.inl h
        · exact Or.inr (List.mem_cons_of_mem _ h)
      · simp only [mapSet, hy, if_false, List.mem_cons] at h
        rcases h with h | h
        · exact Or.inr (h ▸ List.mem_cons_self _ _)
        · rcases ih h with h' | h'
          · exact Or.inl h'
          · exact Or.inr (List.mem_cons_of_mem _ h')

theorem keys_mapSet (m : List MatchEntry) (e : MatchEntry) :
    (mapSet m e).map MatchEntry.noteId =
      if lookupMatch m e.noteId = none then
        m.map MatchEntry.noteId ++ [e.noteId]
      else m.map MatchEntry.noteId := by
  induction m with
  | nil => simp [mapSet, lookupMatch]
  | cons x rest ih =>
      by_cases hx : x.noteId = e.noteId
      · simp [mapSet, hx, lookupMatch]
      · simp only [mapSet, hx, if_false, List.map_cons, lookupMatch, ih]
        by_cases hc : lookupMatch rest e.noteId = none <;> simp [hc]

end MemoriQ

namespace MemoriQ

theorem processRow_decode_error {row : EmbRow} {err : String}
    (h : blobToEmbedding row.blob = .error err) (sim : List Nat → ℚ)
    (ty : MatchType) (m : List MatchEntry) :
    processRow sim ty m row = m := by
  simp [processRow, h]

theorem lookupScore_processRow (sim : List Nat → ℚ) (ty : MatchType)
    (m : List MatchEntry) (row : EmbRow) (n : Int) :
    lookupScore (processRow sim ty m row) n =
      if row.noteId = n then
        omax (lookupScore m n) ((rowSim sim row).bind aboveFloor)
      else lookupScore m n := by
  cases hdec : blobToEmbedding row.blob with
  | error err =>
      simp [processRow, hdec, rowSim, omax_none_right]
  | ok v =>
      simp only [processRow, hdec, rowSim]
      by_cases hthr : SIMILARITY_THRESHOLD ≤ sim v
      · have hfl : aboveFloor (sim v) = some (sim v) := by simp [aboveFloor, hthr]
        rw [if_pos hthr]
        cases hl : lookupMatch m row.noteId with
        | none =>
            dsimp only
            rw [lookupScore, lookupMatch_mapSet]
            by_cases hn : row.noteId = n
            · have hnone : lookupScore m n = none := by
                rw [lookupScore, ← hn, hl]
                rfl
              simp [hn, hnone, omax, hfl]
            · simp [hn, lookupScore, hfl]
        | some e =>
            have hsc : row.noteId = n → lookupScore m n = some e.score := by
              intro hn
              rw [lookupScore, ← hn, hl]
              rfl
            dsimp only
            by_cases hcmp : e.score < sim v
            · rw [if_pos hcmp]
              rw [lookupScore, lookupMatch_mapSet]
              by_cases hn : row.noteId = n
              · simp [hn, hsc hn, omax, max_eq_right (le_of_lt hcmp), hfl]
              · simp [hn, lookupScore, hfl]
            · rw [if_neg hcmp]
              by_cases hn : row.noteId = n
              · simp [hn, hsc hn, omax, max_eq_left (le_of_not_lt hcmp), hfl]
              · simp [hn]
      · have hfl : aboveFloor (sim v) = none := by simp [aboveFloor, hthr]
        rw [if_neg hthr]
        simp [hfl, omax_none_right]

theorem bestAbove_cons (sim : List Nat → ℚ) (n : Int) (row : EmbRow) (rows : List EmbRow) :
    bestAbove sim n (row :: rows) =
      omax (if row.noteId = n then (rowSim sim row).bind aboveFloor else none)
        (bestAbove sim n rows) := by
  simp only [bestAbove]
  rw [foldBest_cons]

theorem lookupScore_processRows (sim : List Nat → ℚ) (ty : MatchType) (n : Int) :
    ∀ (rows : List EmbRow) (m : List MatchEntry),
      lookupScore (processRows sim ty m rows) n =
        omax (lookupScore m n) (bestAbove sim n rows) := by
  intro rows
  induction rows with
  | nil =>
      intro m
      simp [processRows, bestAbove, foldBest, omax_none_right]
  | cons row rows ih =>
      intro m
      have hfold : processRows sim ty m (row :: rows) =
          processRows sim ty (processRow sim ty m row) rows := by
        simp [processRows]
      rw [hfold, ih, lookupScore_processRow, bestAbove_cons]
      by_cases hp : row.noteId = n
      · simp only [hp, if_true]
        rw [omax_assoc]
      · simp [hp, omax_none_left]

theorem lookupScore_noteMatchesOf (sim : List Nat → ℚ)
    (textRows imageRows : List EmbRow) (n : Int) :
    lookupScore (noteMatchesOf sim textRows imageRows) n =
      (bestScore sim n (textRows ++ imageRows)).bind aboveFloor := by
  have h : noteMatchesOf sim textRows imageRows =
      processRows sim MatchType.image (processRows sim MatchType.text [] textRows)
        imageRows := rfl
  rw [h, lookupScore_processRows, lookupScore_processRows]
  have h0 : lookupScore [] n = none := rfl
  rw [h0, omax_none_left, bestAbove_eq, bestAbove_eq, ← bind_aboveFloor_omax]
  congr 1
  simp only [bestScore]
  rw [foldBest_append]

theorem mem_processRow_floor {sim : List Nat → ℚ} {ty : MatchType}
    {m : List MatchEntry} {row : EmbRow}
    (h : ∀ e ∈ m, SIMILARITY_THRESHOLD ≤ e.score) :
    ∀ e ∈ processRow sim ty m row, SIMILARITY_THRESHOLD ≤ e.score := by
  intro e he
  cases hdec : blobToEmbedding row.blob with
  | error err =>
      rw [processRow_decode_error hdec] at he
      exact h e he
  | ok v =>
      simp only [processRow, hdec] at he
      by_cases hthr : SIMILARITY_THRESHOLD ≤ sim v
      · rw [if_pos hthr] at he
        cases hl : lookupMatch m row.noteId with
        | none =>
            rw [hl] at he
            dsimp only at he
            rcases mem_mapSet he with rfl | he'
            · exact hthr
            · exact h e he'
        | some x =>
            rw [hl] at he
            dsimp only at he
            by_cases hcmp : x.score < sim v
            · rw [if_pos hcmp] at he
              rcases mem_mapSet he with rfl | he'
              · exact hthr
              · exact h e he'
            · rw [if_neg hcmp] at he
              exact h e he
      · rw [if_neg hthr] at he
        exact h e he

theorem mem_processRows_floor {sim : List Nat → ℚ} {ty : MatchType} :
    ∀ {rows : List EmbRow} {m : List MatchEntry},
      (∀ e ∈ m, SIMILARITY_THRESHOLD ≤ e.score) →
      ∀ e ∈ processRows sim ty m rows, SIMILARITY_THRESHOLD ≤ e.score := by
  intro rows
  induction rows with
  | nil => intro m h e he; exact h e he
  | cons row rows ih =>
      intro m h e he
      have hfold : processRows sim ty m (row :: rows) =
          processRows sim ty (processRow sim ty m row) rows := by
        simp [processRows]
      rw [hfold] at he
      exact ih (mem_processRow_floor h) e he

theorem mem_noteMatchesOf_floor (sim : List Nat → ℚ)
    (textRows imageRows : List EmbRow) :
    ∀ e ∈ noteMatchesOf sim textRows imageRows, SIMILARITY_THRESHOLD ≤ e.score := by
  have h0 : ∀ e ∈ ([] : List MatchEntry), SIMILARITY_THRESHOLD ≤ e.score := by
    intro e he; cases he
  exact mem_processRows_floor (mem_processRows_floor h0)

theorem nodupKeys_processRow {sim : List Nat → ℚ} {ty : MatchType}
    {m : List MatchEntry} {row : EmbRow}
    (h : (m.map MatchEntry.noteId).Nodup) :
    ((processRow sim ty m row).map MatchEntry.noteId).Nodup := by
  cases hdec : blobToEmbedding row.blob with
  | error err =>
      rw [processRow_decode_error hdec]
      exact h
  | ok v =>
      simp only [processRow, hdec]
      by_cases hthr : SIMILARITY_THRESHOLD ≤ sim v
      · rw [if_pos hthr]
        cases hl : lookupMatch m row.noteId with
        | none =>
            rw [keys_mapSet]
            rw [if_pos hl]
            have hnot : row.noteId ∉ m.map MatchEntry.noteId := by
              intro hmem
              obtain ⟨e, he, heq⟩ := List.mem_map.mp hmem
              exact (lookupMatch_eq_none m row.noteId).mp hl e he heq
            simp [List.nodup_append, h, hnot]
        | some x =>
            dsimp only
            by_cases hcmp : x.score < sim v
            · rw [if_pos hcmp, keys_mapSet,
                if_neg (by rw [hl]; exact fun hc => Option.noConfusion hc)]
              exact h
            · rw [if_neg hcmp]
              exact h
      · rw [if_neg hthr]
        exact h

theorem nodupKeys_processRows {sim : List Nat → ℚ} {ty : MatchType} :
    ∀ {rows : List EmbRow} {m : List MatchEntry},
      (m.map MatchEntry.noteId).Nodup →
      ((processRows sim ty m rows).map MatchEntry.noteId).Nodup := by
  intro rows
  induction rows with
  | nil => intro m h; exact h
  | cons row rows ih =>
      intro m h
      have hfold : processRows sim ty m (row :: rows) =
          processRows sim ty (processRow sim ty m row) rows := by
        simp [processRows]
      rw [hfold]
      exact ih (nodupKeys_processRow h)

theorem nodupKeys_noteMatchesOf (sim : List Nat → ℚ)
    (textRows imageRows : List EmbRow) :
    ((noteMatchesOf sim textRows imageRows).map MatchEntry.noteId).Nodup :=
  nodupKeys_processRows (nodupKeys_processRows List.nodup_nil)

theorem lookupMatch_of_mem {m : List MatchEntry} {e : MatchEntry}
    (hnd : (m.map MatchEntry.noteId).Nodup) (he : e ∈ m) :
    lookupMatch m e.noteId = some e := by
  induction m with
  | nil => cases he
  | cons x rest ih =>
      rw [List.map_cons, List.nodup_cons] at hnd
      rcases List.mem_cons.mp he with rfl | he'
      · simp [lookupMatch]
      · have hx : x.noteId ≠ e.noteId := by
          intro hEq
          exact hnd.1 (hEq ▸ List.mem_map_of_mem MatchEntry.noteId he')
        simp only [lookupMatch, hx, if_false]
        exact ih hnd.2 he'

end MemoriQ

namespace MemoriQ

theorem aboveFloor_eq_some {s t : ℚ} :
    aboveFloor s = some t ↔ SIMILARITY_THRESHOLD ≤ s ∧ t = s := by
  unfold aboveFloor
  by_cases h : SIMILARITY_THRESHOLD ≤ s <;> simp [h, eq_comm]

theorem relFilter_sublist (l : List MatchEntry) : (relFilter l).Sublist l := by
  cases l with
  | nil => exact List.Sublist.refl _
  | cons top rest => exact List.Sublist.cons₂ top (List.filter_sublist rest)

theorem relFilter_sorted {l : List MatchEntry} (h : List.Sorted matchDesc l) :
    List.Sorted matchDesc (relFilter l) := by
  cases l with
  | nil => exact h
  | cons top rest =>
      rw [List.sorted_cons] at h
      refine List.sorted_cons.mpr ⟨?_, h.2.filter _⟩
      intro b hb
      exact h.1 b (List.mem_of_mem_filter hb)

theorem mem_relFilter_cons {top x : MatchEntry} {rest : List MatchEntry}
    (hx : x ∈ relFilter (top :: rest)) :
    x = top ∨ top.score * RELATIVE_THRESHOLD ≤ x.score := by
  rcases List.mem_cons.mp hx with h | h
  · exact Or.inl h
  · right
    have := List.of_mem_filter h
    simpa using this

theorem hydrateOne_score {tab : Int → Option NoteWithDetails} {e : MatchEntry}
    {r : RetrievedNote} (h : hydrateOne tab e = some r) :
    r.similarityScore = e.score ∧ r.matchType = e.matchType ∧
      ∃ note, tab e.noteId = some note ∧ r.noteId = note.id := by
  unfold hydrateOne at h
  cases htab : tab e.noteId with
  | none => rw [htab] at h; cases h
  | some note =>
      rw [htab] at h
      simp only [Option.map_some', Option.some.injEq] at h
      subst h
      exact ⟨rfl, rfl, note, rfl, rfl⟩

theorem mem_hydrate {tab : Int → Option NoteWithDetails} {l : List MatchEntry}
    {r : RetrievedNote} (h : r ∈ hydrate tab l) :
    ∃ e ∈ l, r.similarityScore = e.score ∧ r.matchType = e.matchType ∧
      ∃ note, tab e.noteId = some note ∧ r.noteId = note.id := by
  obtain ⟨e, he, hfe⟩ := List.mem_filterMap.mp h
  exact ⟨e, he, hydrateOne_score hfe⟩

theorem hydrate_ids_sublist (tab : Int → Option NoteWithDetails)
    (htab : ∀ n note, tab n = some note → note.id = n) (l : List MatchEntry) :
    ((hydrate tab l).map RetrievedNote.noteId).Sublist
      (l.map MatchEntry.noteId) := by
  induction l with
  | nil => simp [hydrate]
  | cons e rest ih =>
      rw [hydrate, List.filterMap_cons]
      cases hfe : hydrateOne tab e with
      | none =>
          exact List.Sublist.trans ih (List.sublist_cons_self _ _)
      | some r =>
          obtain ⟨-, -, note, hnote, hid⟩ := hydrateOne_score hfe
          have : r.noteId = e.noteId := by rw [hid, htab e.noteId note hnote]
          simp only [List.map_cons, this]
          exact List.Sublist.cons₂ _ ih

theorem hydrate_sorted {tab : Int → Option NoteWithDetails} {l : List MatchEntry}
    (h : List.Sorted matchDesc l) :
    List.Sorted (fun a b : RetrievedNote => b.similarityScore ≤ a.similarityScore)
      (hydrate tab l) := by
  rw [hydrate, List.Sorted, List.pairwise_filterMap]
  refine h.imp_of_mem ?_
  intro a b _ _ hab
  intro x hx y hy
  rw [Option.mem_def] at hx hy
  obtain ⟨hxa, -, -⟩ := hydrateOne_score hx
  obtain ⟨hyb, -, -⟩ := hydrateOne_score hy
  rw [hxa, hyb]
  exact hab

theorem hydrate_cons_some {tab : Int → Option NoteWithDetails} {e : MatchEntry}
    {r : RetrievedNote} (h : hydrateOne tab e = some r) (l : List MatchEntry) :
    hydrate tab (e :: l) = r :: hydrate tab l := by
  rw [hydrate, List.filterMap_cons, h]
  rfl

end MemoriQ

namespace MemoriQ

theorem mem_sortedMatchesOf_best {sim : List Nat → ℚ} {tr ir : List EmbRow}
    {e : MatchEntry} (he : e ∈ sortedMatchesOf sim tr ir) :
    bestScore sim e.noteId (tr ++ ir) = some e.score ∧
      SIMILARITY_THRESHOLD ≤ e.score := by
  have heE : e ∈ noteMatchesOf sim tr ir := (List.mem_insertionSort _).mp he
  have hlk : lookupMatch (noteMatchesOf sim tr ir) e.noteId = some e :=
    lookupMatch_of_mem (nodupKeys_noteMatchesOf sim tr ir) heE
  have hls : lookupScore (noteMatchesOf sim tr ir) e.noteId = some e.score := by
    rw [lookupScore, hlk]
    rfl
  rw [lookupScore_noteMatchesOf] at hls
  obtain ⟨s0, hs0, hfl⟩ := Option.bind_eq_some.mp hls
  obtain ⟨hthr, heq⟩ := aboveFloor_eq_some.mp hfl
  subst heq
  exact ⟨hs0, hthr⟩

theorem bestScore_mem_sortedMatchesOf {sim : List Nat → ℚ} {tr ir : List EmbRow}
    {n : Int} {s : ℚ}
    (hbs : bestScore sim n (tr ++ ir) = some s) (hthr : SIMILARITY_THRESHOLD ≤ s) :
    ∃ e, e ∈ sortedMatchesOf sim tr ir ∧ e.noteId = n ∧ e.score = s := by
  have hls : lookupScore (noteMatchesOf sim tr ir) n = some s := by
    rw [lookupScore_noteMatchesOf, hbs]
    simp [aboveFloor, hthr]
  rw [lookupScore] at hls
  obtain ⟨e, he, hesc⟩ := Option.map_eq_some'.mp hls
  obtain ⟨hmem, hid⟩ := lookupMatch_eq_some he
  exact ⟨e, (List.mem_insertionSort _).mpr hmem, hid, hesc⟩

end MemoriQ

set_option maxRecDepth 8192 in
open MemoriQ in
/-- C1: for every similarity function (the cosine against any query
vector) and all stored completed text/image embedding rows,
`retrieveRelevantNotes` (i) gives each returned note exactly its single
best similarity across all of its own rows, at or above the absolute
floor 0.5, with each note returned at most once, (ii) excludes every note
whose best score is below the floor, (iii) returns results in descending
score order, (iv) returns at most `topK` notes, (v) returns only notes
whose score is at least 0.75 times every surviving note's best score —
in particular at least 0.75 times the top score — and (vi) whenever some
note passes the floor, `topK ≥ 1`, and hydration succeeds, the
top-scoring note is returned first; (vii) on the spec's example — per-note
best scores 0.82, 0.55 and 0.20 — only the note scoring 0.82 is
returned. -/
theorem C1_retrieval_selection (sim : List Nat → ℚ) (textRows imageRows : List EmbRow)
    (topK : Nat) (tab : Int → Option NoteWithDetails)
    (htab : ∀ n note, tab n = some note → note.id = n) :
    (∀ r ∈ retrieveRelevantNotes sim textRows imageRows topK tab,
        SIMILARITY_THRESHOLD ≤ r.similarityScore ∧
          bestScore sim r.noteId (textRows ++ imageRows) = some r.similarityScore) ∧
    ((retrieveRelevantNotes sim textRows imageRows topK tab).map
        RetrievedNote.noteId).Nodup ∧
    (∀ n s, bestScore sim n (textRows ++ imageRows) = some s →
        s < SIMILARITY_THRESHOLD →
        ∀ r ∈ retrieveRelevantNotes sim textRows imageRows topK tab, r.noteId ≠ n) ∧
    List.Sorted (fun a b : RetrievedNote => b.similarityScore ≤ a.similarityScore)
      (retrieveRelevantNotes sim textRows imageRows topK tab) ∧
    (retrieveRelevantNotes sim textRows imageRows topK tab).length ≤ topK ∧
    (∀ r ∈ retrieveRelevantNotes sim textRows imageRows topK tab,
        ∀ n s, bestScore sim n (textRows ++ imageRows) = some s →
          SIMILARITY_THRESHOLD ≤ s →
          RELATIVE_THRESHOLD * s ≤ r.similarityScore) ∧
    ((∃ n s, bestScore sim n (textRows ++ imageRows) = some s ∧
        SIMILARITY_THRESHOLD ≤ s) →
      1 ≤ topK → (∀ k, (tab k).isSome) →
      ∃ r rest, retrieveRelevantNotes sim textRows imageRows topK tab = r :: rest ∧
        ∀ n s, bestScore sim n (textRows ++ imageRows) = some s →
          SIMILARITY_THRESHOLD ≤ s → s ≤ r.similarityScore) ∧
    retrieveRelevantNotes exSim [exRow 1 1, exRow 2 2, exRow 3 3] [] TOP_K exTab =
      [{ noteId := 1, title := "", content := "", tags := [], images := [],
         audioUri := none, similarityScore := 82 / 100,
         matchType := MatchType.text }] := by
  have hSsort : List.Sorted matchDesc (sortedMatchesOf sim textRows imageRows) :=
    List.sorted_insertionSort _ _
  simp only [retrieveRelevantNotes]
  set S := sortedMatchesOf sim textRows imageRows with hS
  set F := relFilter S with hF
  set final := F.take topK with hfinal
  have key : ∀ r ∈ hydrate tab final,
      SIMILARITY_THRESHOLD ≤ r.similarityScore ∧
      bestScore sim r.noteId (textRows ++ imageRows) = some r.similarityScore ∧
      ∃ e ∈ F, r.similarityScore = e.score := by
    intro r hr
    obtain ⟨e, hef, hrs, hrm, note, hnote, hrid⟩ := mem_hydrate hr
    have h1 : e ∈ F := (List.take_sublist _ _).subset hef
    have h2 : e ∈ S := (relFilter_sublist S).subset h1
    obtain ⟨hbest, hthr⟩ := mem_sortedMatchesOf_best h2
    have hidr : r.noteId = e.noteId := by rw [hrid, htab _ _ hnote]
    exact ⟨by rw [hrs]; exact hthr, by rw [hidr, hrs]; exact hbest, e, h1, hrs⟩
  refine ⟨fun r hr => ⟨(key r hr).1, (key r hr).2.1⟩, ?_, ?_, ?_, ?_, ?_, ?_, ?_⟩
  · have h1 := hydrate_ids_sublist tab htab final
    have h2 : (final.map MatchEntry.noteId).Sublist (F.map MatchEntry.noteId) :=
      (List.take_sublist _ _).map _
    have h3 : (F.map MatchEntry.noteId).Sublist (S.map MatchEntry.noteId) :=
      (relFilter_sublist S).map _
    have h4 : (S.map MatchEntry.noteId).Nodup := by
      have hperm : S.Perm (noteMatchesOf sim textRows imageRows) :=
        List.perm_insertionSort _ _
      exact ((hperm.map MatchEntry.noteId).symm).nodup
        (nodupKeys_noteMatchesOf sim textRows imageRows)
    exact List.Nodup.sublist ((h1.trans h2).trans h3) h4
  · intro n s hbs hlt r hr hEq
    obtain ⟨hthr, hbest, -⟩ := key r hr
    rw [hEq, hbs] at hbest
    have heq2 : s = r.similarityScore := Option.some.inj hbest
    rw [← heq2] at hthr
    exact absurd hlt (not_lt.mpr hthr)
  · exact hydrate_sorted
      (List.Pairwise.sublist (List.take_sublist _ _) (relFilter_sorted hSsort))
  · exact le_trans (List.length_filterMap_le _ _)
      (by rw [hfinal]; exact List.length_take_le _ _)
  · intro r hr n s hbs hths
    obtain ⟨-, -, e, heF, hre⟩ := key r hr
    obtain ⟨en, henS, -, hens⟩ := bestScore_mem_sortedMatchesOf hbs hths
    rw [← hS] at henS
    cases hSc : S with
    | nil =>
        rw [hSc] at henS
        cases henS
    | cons top restS =>
        rw [hSc] at henS hSsort
        rw [hF, hSc] at heF
        have htopmax : ∀ x ∈ (top :: restS), x.score ≤ top.score := by
          intro x hx
          rcases List.mem_cons.mp hx with rfl | hx'
          · exact le_refl _
          · exact (List.sorted_cons.mp hSsort).1 x hx'
        have hstop : s ≤ top.score := by
          rw [← hens]
          exact htopmax en henS
        have htopthr : SIMILARITY_THRESHOLD ≤ top.score := by
          have htm : top ∈ S := by
            rw [hSc]
            exact List.mem_cons_self _ _
          exact (mem_sortedMatchesOf_best htm).2
        have htoppos : (0 : ℚ) ≤ top.score :=
          le_trans (by norm_num [SIMILARITY_THRESHOLD]) htopthr
        rw [hre]
        rcases mem_relFilter_cons heF with rfl | hrel
        · calc RELATIVE_THRESHOLD * s ≤ RELATIVE_THRESHOLD * e.score :=
                mul_le_mul_of_nonneg_left hstop (by norm_num [RELATIVE_THRESHOLD])
            _ ≤ e.score := mul_le_of_le_one_left htoppos (by norm_num [RELATIVE_THRESHOLD])
        · calc RELATIVE_THRESHOLD * s ≤ RELATIVE_THRESHOLD * top.score :=
                mul_le_mul_of_nonneg_left hstop (by norm_num [RELATIVE_THRESHOLD])
            _ = top.score * RELATIVE_THRESHOLD := mul_comm _ _
            _ ≤ e.score := hrel
  · rintro ⟨n, s, hbs, hths⟩ htopk htaball
    obtain ⟨en, henS, -, -⟩ := bestScore_mem_sortedMatchesOf hbs hths
    rw [← hS] at henS
    cases hSc : S with
    | nil =>
        rw [hSc] at henS
        cases henS
    | cons top restS =>
        obtain ⟨k, rfl⟩ : ∃ k, topK = k + 1 := ⟨topK - 1, by omega⟩
        have hFc : F = top :: (restS.filter fun e =>
            decide (top.score * RELATIVE_THRESHOLD ≤ e.score)) := by
          rw [hF, hSc]
          rfl
        have hfinalc : final = top :: ((restS.filter fun e =>
            decide (top.score * RELATIVE_THRESHOLD ≤ e.score)).take k) := by
          rw [hfinal, hFc]
          rfl
        obtain ⟨note, hnote⟩ := Option.isSome_iff_exists.mp (htaball top.noteId)
        have hex : ∃ r0, hydrateOne tab top = some r0 := by
          rw [hydrateOne, hnote]
          exact ⟨_, rfl⟩
        obtain ⟨r0, hr0⟩ := hex
        obtain ⟨hr0s, -, -⟩ := hydrateOne_score hr0
        have hres2 : hydrate tab final = r0 :: hydrate tab ((restS.filter fun e =>
            decide (top.score * RELATIVE_THRESHOLD ≤ e.score)).take k) := by
          rw [hfinalc]
          exact hydrate_cons_some hr0 _
        refine ⟨r0, _, hres2, ?_⟩
        intro n' s' hbs' hths'
        obtain ⟨en', henS', -, hens'⟩ := bestScore_mem_sortedMatchesOf hbs' hths'
        rw [← hS] at henS'
        rw [hSc] at henS' hSsort
        have hle : en'.score ≤ top.score := by
          rcases List.mem_cons.mp henS' with rfl | hx'
          · exact le_refl _
          · exact (List.sorted_cons.mp hSsort).1 _ hx'
        rw [hr0s, ← hens']
        exact hle
  · norm_num [retrieveRelevantNotes, sortedMatchesOf, noteMatchesOf, processRows,
      processRow, exSim, exRow, exTab, blobToEmbedding, embeddingToBlob, wordBytes,
      bytesToFloats, SIMILARITY_THRESHOLD, RELATIVE_THRESHOLD, TOP_K, lookupMatch,
      mapSet, relFilter, hydrate, hydrateOne, List.insertionSort, List.orderedInsert,
      matchDesc, List.filterMap, List.filter]

/-- Witness for C1 at the concrete example instance: the result contains
at most `TOP_K` notes (conjunct (iv) of the theorem applied at the
example's rows, similarity function and table). -/
theorem C1_retrieval_selection_witness :
    (MemoriQ.retrieveRelevantNotes MemoriQ.exSim
        [MemoriQ.exRow 1 1, MemoriQ.exRow 2 2, MemoriQ.exRow 3 3] [] MemoriQ.TOP_K
        MemoriQ.exTab).length ≤ MemoriQ.TOP_K :=
  (C1_retrieval_selection MemoriQ.exSim
    [MemoriQ.exRow 1 1, MemoriQ.exRow 2 2, MemoriQ.exRow 3 3] [] MemoriQ.TOP_K
    MemoriQ.exTab
    (fun n note h => by
      simp only [MemoriQ.exTab, Option.some.injEq] at h
      rw [← h])).2.2.2.2.1

open MemoriQ in
/-- C8: a stored embedding row whose blob cannot be decoded is skipped —
the retrieval result over rows containing a malformed row (in either the
text or the image scan) equals the result over the remaining valid rows.
The model is a total function, so no exception reaches the caller; the
source additionally wraps the whole call in a `try`/`catch` returning
`[]`. -/
theorem C8_malformed_row_skipped (sim : List Nat → ℚ)
    (pre post otherRows : List EmbRow) (row : EmbRow) (err : String)
    (herr : blobToEmbedding row.blob = .error err)
    (topK : Nat) (tab : Int → Option NoteWithDetails) :
    retrieveRelevantNotes sim (pre ++ row :: post) otherRows topK tab =
      retrieveRelevantNotes sim (pre ++ post) otherRows topK tab ∧
    retrieveRelevantNotes sim otherRows (pre ++ row :: post) topK tab =
      retrieveRelevantNotes sim otherRows (pre ++ post) topK tab := by
  have hskip : ∀ (ty : MatchType) (m : List MatchEntry),
      processRows sim ty m (pre ++ row :: post) = processRows sim ty m (pre ++ post) := by
    intro ty m
    simp only [processRows, List.foldl_append, List.foldl_cons]
    rw [processRow_decode_error herr]
  constructor <;>
    · simp only [retrieveRelevantNotes, sortedMatchesOf, noteMatchesOf]
      rw [hskip]

/-- Witness for C8: dropping a malformed `unsupported`-typed blob row from
the example rows leaves the retrieval result unchanged, in both scans. -/
theorem C8_malformed_row_skipped_witness :
    MemoriQ.retrieveRelevantNotes MemoriQ.exSim
        ([MemoriQ.exRow 1 1] ++ { noteId := 9, blob := MemoriQ.Blob.unsupported } ::
          [MemoriQ.exRow 2 2]) [] 2 MemoriQ.exTab =
      MemoriQ.retrieveRelevantNotes MemoriQ.exSim
        ([MemoriQ.exRow 1 1] ++ [MemoriQ.exRow 2 2]) [] 2 MemoriQ.exTab ∧
    MemoriQ.retrieveRelevantNotes MemoriQ.exSim []
        ([MemoriQ.exRow 1 1] ++ { noteId := 9, blob := MemoriQ.Blob.unsupported } ::
          [MemoriQ.exRow 2 2]) 2 MemoriQ.exTab =
      MemoriQ.retrieveRelevantNotes MemoriQ.exSim []
        ([MemoriQ.exRow 1 1] ++ [MemoriQ.exRow 2 2]) 2 MemoriQ.exTab :=
  C8_malformed_row_skipped MemoriQ.exSim [MemoriQ.exRow 1 1] [MemoriQ.exRow 2 2] []
    { noteId := 9, blob := MemoriQ.Blob.unsupported } "Unsupported blob type" rfl 2
    MemoriQ.exTab
